import Mathlib

/-!
Verification of the PDF diploma scanner (`src/scanner.py`).

Shallow embedding notes:
* Page coordinates, dimensions and font sizes are floats in the source; they
  are modelled as rationals (`ℚ`).  The decimal thresholds `0.2`, `0.8`, `0.3`,
  `0.6`, `0.7` of the source are exact in `ℚ`.
* Python strings are modelled as `List Char`.  The character classes of the
  source's regular expressions (`[A-Za-z\s\.]`, `[A-Z0-9]`, `\w`, `\b`) are
  modelled over ASCII, matching the characters the scanned documents contain.
* The renderer's `page.get_text("dict")` dictionary is modelled by the
  `Block`/`Line`/`Span` structures below; a block without a `"lines"` key
  (an image block) is a `Block` whose `lines` field is `none`.
-/

namespace Scanner

/-- Python whitespace characters (`str.strip`, regex `\s`), ASCII fragment. -/
def isPySpace (c : Char) : Bool :=
  c == ' ' || c == '\t' || c == '\n' || c == '\r' || c == '\x0b' || c == '\x0c'

/-- Python `str.strip()` on a character list. -/
def pyStrip (l : List Char) : List Char :=
  ((l.dropWhile isPySpace).reverse.dropWhile isPySpace).reverse

/-- Python `str.lower()` (ASCII). -/
def lowerCL (l : List Char) : List Char :=
  l.map Char.toLower

/-- Tests whether the first list is a prefix of the second (Boolean). -/
def isPrefixOfCL : List Char → List Char → Bool
  | [], _ => true
  | _ :: _, [] => false
  | a :: as, b :: bs => a == b && isPrefixOfCL as bs

/-- Python substring membership `needle in hay` (Boolean). -/
def containsSub (needle : List Char) : List Char → Bool
  | [] => isPrefixOfCL needle []
  | b :: bs => isPrefixOfCL needle (b :: bs) || containsSub needle bs

/-- ASCII letter, as matched by the source regex class `A-Za-z`. -/
def isAsciiLetter (c : Char) : Bool :=
  ('A' ≤ c && c ≤ 'Z') || ('a' ≤ c && c ≤ 'z')

/-- Character class `[A-Za-z\s\.]` of the name regex in `scanner.py` line 50. -/
def isNameChar (c : Char) : Bool :=
  isAsciiLetter c || isPySpace c || c == '.'

/-- Character class `[A-Z0-9]` of the passkey regex in `scanner.py` line 57. -/
def isUpperDigit (c : Char) : Bool :=
  ('A' ≤ c && c ≤ 'Z') || ('0' ≤ c && c ≤ '9')

/-- Regex word character (`\w`, ASCII): letter, digit or underscore.  The
word-boundary `\b` of the passkey regex separates word and non-word
characters. -/
def isWordChar (c : Char) : Bool :=
  isAsciiLetter c || ('0' ≤ c && c ≤ '9') || c == '_'

/-- Success of `re.match(r'^[A-Za-z\s\.]+$', text)`.  Since the class contains
`\s` (hence `\n`), the `$`-before-trailing-newline rule of Python regexes
changes nothing: the regex matches iff the text is non-empty and every
character is in the class. -/
def matchesNamePattern (t : List Char) : Bool :=
  !t.isEmpty && t.all isNameChar

/-- One rendered span of text, as delivered by the rendering library:
raw text, bounding box `(x0, y0, x1, y1)` and font size. -/
structure Span where
  text : List Char
  x0 : ℚ
  y0 : ℚ
  x1 : ℚ
  y1 : ℚ
  size : ℚ
deriving DecidableEq

/-- One line of a text block. -/
structure Line where
  spans : List Span
deriving DecidableEq

/-- One block of the `get_text("dict")` output; `lines = none` models a block
without a `"lines"` key. -/
structure Block where
  lines : Option (List Line)
deriving DecidableEq

/-- A rendered page: dimensions plus the block structure. -/
structure Page where
  width : ℚ
  height : ℚ
  blocks : List Block
deriving DecidableEq

/-- The per-span record built in `scanner.py` lines 30–37. -/
structure TextItem where
  text : List Char
  x : ℚ
  y : ℚ
  width : ℚ
  height : ℚ
  font_size : ℚ
deriving DecidableEq

/-- Lines 27–37 of `scanner.py` for one span: strip the text, drop the span
if nothing remains, otherwise record text and geometry. -/
def spanItem (s : Span) : Option TextItem :=
  let t := pyStrip s.text
  if t.isEmpty then none
  else some { text := t, x := s.x0, y := s.y0,
              width := s.x1 - s.x0, height := s.y1 - s.y0,
              font_size := s.size }

/-- The items of one line: its spans, kept when `spanItem` keeps them. -/
def lineItems (ln : Line) : List TextItem :=
  ln.spans.filterMap spanItem

/-- The items of one block: nothing for a block without a `"lines"` key. -/
def blockItems (b : Block) : List TextItem :=
  match b.lines with
  | none => []
  | some ls => ls.flatMap lineItems

/-- Lines 23–37: walk blocks, lines and spans in renderer order and collect
the non-empty stripped spans. -/
def collectItems (blocks : List Block) : List TextItem :=
  blocks.flatMap blockItems

/-- Insertion step of a stable sort on the `y` field: an item is placed
before the first element whose `y` is not smaller, so items with equal `y`
keep their original relative order, as Python's stable `list.sort` does. -/
def insertByY (a : TextItem) : List TextItem → List TextItem
  | [] => [a]
  | b :: bs => if a.y ≤ b.y then a :: b :: bs else b :: insertByY a bs

/-- Line 40, `all_text_items.sort(key=lambda x: x['y'])`: a stable sort by
the `y` coordinate (Python's `list.sort` is documented to be stable). -/
def sortByY (l : List TextItem) : List TextItem :=
  l.foldr insertByY []

/-- Lines 23–40 together: the Text-Layout Extractor.  Collect the stripped,
non-empty spans and sort them top to bottom. -/
def extractFragments (blocks : List Block) : List TextItem :=
  sortByY (collectItems blocks)

/-- The blocklist of line 52. -/
def blocklist : List (List Char) :=
  ["bachelor", "science", "hospitality", "management",
   "philippines", "manila", "greetings"].map String.data

/-- The name condition of lines 47–52: large font, center area, name
pattern, length and blocklist checks. -/
def nameQualifies (page_width page_height : ℚ) (item : TextItem) : Bool :=
  decide (item.font_size > 15) &&
  decide (item.x > page_width * 0.2) && decide (item.x < page_width * 0.8) &&
  decide (item.y > page_height * 0.3) && decide (item.y < page_height * 0.6) &&
  matchesNamePattern item.text &&
  decide (item.text.length > 5) &&
  !(blocklist.any fun skip => containsSub skip (lowerCL item.text))

/-- Lines 43–54: the name loop.  Scan the sorted items and return the text
of the first one satisfying `nameQualifies`; `""` if there is none. -/
def findName (page_width page_height : ℚ) : List TextItem → List Char
  | [] => []
  | item :: rest =>
    if nameQualifies page_width page_height item then item.text
    else findName page_width page_height rest

/-- Accumulator loop splitting a string into its maximal runs of characters
satisfying `p`, in order; `acc` holds the current (reversed) run. -/
def runsAux (p : Char → Bool) : List Char → List Char → List (List Char)
  | [], acc => if acc.isEmpty then [] else [acc.reverse]
  | c :: cs, acc =>
    if p c then runsAux p cs (c :: acc)
    else if acc.isEmpty then runsAux p cs [] else acc.reverse :: runsAux p cs []

/-- Maximal runs of word characters of a string, in order.  The passkey
regex `\b[A-Z0-9]{6,12}\b` can only match a whole such run: `\b` forces the
match to start at the beginning and end at the end of a maximal `\w`-run,
and `[A-Z0-9]{6,12}` then forces the entire run to consist of uppercase
letters and digits and to have length 6–12. -/
def wordRuns (l : List Char) : List (List Char) :=
  runsAux isWordChar l []

/-- A word run is a passkey token when it is 6–12 uppercase
letters/digits. -/
def isPasskeyRun (r : List Char) : Bool :=
  r.all isUpperDigit && decide (6 ≤ r.length) && decide (r.length ≤ 12)

/-- First element of `re.findall(r'\b[A-Z0-9]{6,12}\b', text)`, when it exists: the first
maximal word run that is 6–12 uppercase letters/digits. -/
def tokenOfText (t : List Char) : Option (List Char) :=
  (wordRuns t).find? isPasskeyRun

/-- The positional passkey condition of lines 61–62: bottom right area. -/
def passkeyQualifies (page_width page_height : ℚ) (item : TextItem) : Bool :=
  decide (item.x > page_width * 0.7) && decide (item.y > page_height * 0.8)

/-- Lines 59–67: the passkey loop.  Scan the sorted items; on the first one
in the bottom-right area whose text contains a token, return that token and
stop; positionally qualifying items without a token are passed over. -/
def findPasskey (page_width page_height : ℚ) : List TextItem → List Char
  | [] => []
  | item :: rest =>
    if passkeyQualifies page_width page_height item then
      match tokenOfText item.text with
      | some tok => tok
      | none => findPasskey page_width page_height rest
    else findPasskey page_width page_height rest

/-- The Field Heuristic Matcher on an already-extracted fragment list:
sort by `y`, then run the two independent rules. -/
def matchFields (page_width page_height : ℚ) (items : List TextItem) :
    List Char × List Char :=
  let sorted := sortByY items
  (findName page_width page_height sorted,
   findPasskey page_width page_height sorted)

/-- Function `extract_name_and_passkey_improved` (lines 6–69): extract the spans of
the page and run the matcher against the page's own dimensions. -/
def extract_name_and_passkey_improved (page : Page) : List Char × List Char :=
  matchFields page.width page.height (collectItems page.blocks)

/-- Boolean sortedness check: each item's `y` is at most the next one's. -/
def sortedByYb : List TextItem → Bool
  | [] => true
  | [_] => true
  | a :: b :: rest => decide (a.y ≤ b.y) && sortedByYb (b :: rest)

/-- ASCII alphanumeric character (letter or digit, no underscore). -/
def isAsciiAlphanum (c : Char) : Bool :=
  isAsciiLetter c || ('0' ≤ c && c ≤ '9')

/-- Modelled from the spec's words (claim-side, for comparison with
`tokenOfText`): a passkey token is "bounded by non-alphanumeric characters
or string edges", so a candidate is a maximal run of ASCII alphanumeric
characters — an adjacent underscore does not end a candidate here, while it
does for the regex `\b` of the source. -/
def claimTokenOfText (t : List Char) : Option (List Char) :=
  (runsAux isAsciiAlphanum t []).find? isPasskeyRun

/-- Modelled from the spec's words (claim-side): the passkey result the
claim prescribes for a page — the claim-side token of the first bottom-right
fragment that has one. -/
def passkeyClaimResult (page : Page) : List Char :=
  (((extractFragments page.blocks).find? fun it =>
      passkeyQualifies page.width page.height it &&
        (claimTokenOfText it.text).isSome).map
    fun it => (claimTokenOfText it.text).getD []).getD []

/-- One output row of the batch scan: 1-based page number, name, passkey. -/
structure BatchRow where
  page : ℕ
  name : List Char
  passkey : List Char
deriving DecidableEq

/-- Function `scan_pdf_batch` (lines 113–168).  The document argument is `none` when
`fitz.open` raised, in which case the function returns `none` (line 123):
no pages are processed and no rows are produced.  Otherwise the pages
`range(start_page, min(end_page, total_pages))` are processed in order and
the row table is returned (file output carries exactly these rows). -/
def scan_pdf_batch (doc : Option (List Page)) (start_page : ℕ)
    (end_page : Option ℕ) : Option (List BatchRow) :=
  match doc with
  | none => none
  | some pages =>
    let total_pages := pages.length
    let e := end_page.getD total_pages
    some ((List.range' start_page (min e total_pages - start_page)).map
      fun page_num =>
        let r := extract_name_and_passkey_improved
          (pages.getD page_num { width := 0, height := 0, blocks := [] })
        { page := page_num + 1, name := r.1, passkey := r.2 })

/-- The fragment of the spec's name example, at 40% of the page width and
height; the fragment's own width and height are not fixed by the spec and
are parameters. -/
def johnItem (pw ph fw fh : ℚ) : TextItem :=
  { text := "John Michael Dela Cruz".data, x := 0.4 * pw, y := 0.4 * ph,
    width := fw, height := fh, font_size := 18 }

/-- The same fragment on a 100×100 page, with the coordinates evaluated. -/
def johnFixed : TextItem :=
  { text := "John Michael Dela Cruz".data, x := 40, y := 40,
    width := 1, height := 1, font_size := 18 }

/-- A non-blocklisted fragment that satisfies every name condition on a
100×100 page and sits above `johnFixed`. -/
def mariaItem : TextItem :=
  { text := "Maria Clara Santos".data, x := 40, y := 35,
    width := 1, height := 1, font_size := 18 }

/-- Fragment list for the name-example counterexample: a fully qualifying,
non-blocklisted fragment earlier in sort order than the example fragment. -/
def cexNameList : List TextItem :=
  [mariaItem, johnFixed]

/-- A bottom-right span whose text carries a passkey prefixed by `ID_`. -/
def pkSpan : Span :=
  { text := "ID_ABC123".data, x0 := 85, y0 := 90, x1 := 95, y1 := 95, size := 10 }

/-- A 100×100 page whose only span is `pkSpan`. -/
def pkPage : Page :=
  { width := 100, height := 100,
    blocks := [{ lines := some [{ spans := [pkSpan] }] }] }

/-! ### Helper lemmas -/

theorem findName_eq_find? (pw ph : ℚ) (l : List TextItem) :
    findName pw ph l = ((l.find? (nameQualifies pw ph)).map TextItem.text).getD [] := by
  induction l with
  | nil => rfl
  | cons a rest ih =>
    by_cases h : nameQualifies pw ph a = true
    · simp [findName, List.find?_cons_of_pos rest h, h]
    · simp only [findName, h, if_false, Bool.false_eq_true, ih,
        List.find?_cons_of_neg rest h]

theorem findPasskey_eq_find? (pw ph : ℚ) (l : List TextItem) :
    findPasskey pw ph l =
      ((l.find? fun it =>
          passkeyQualifies pw ph it && (tokenOfText it.text).isSome).map
        fun it => (tokenOfText it.text).getD []).getD [] := by
  induction l with
  | nil => rfl
  | cons a rest ih =>
    by_cases hq : passkeyQualifies pw ph a = true
    · cases htok : tokenOfText a.text with
      | some tok =>
        have hp : (passkeyQualifies pw ph a && (tokenOfText a.text).isSome) = true := by
          simp [hq, htok]
        simp [findPasskey, hq, htok,
          @List.find?_cons_of_pos _
            (fun it => passkeyQualifies pw ph it && (tokenOfText it.text).isSome) a rest hp]
      | none =>
        have hp : ¬ (passkeyQualifies pw ph a && (tokenOfText a.text).isSome) = true := by
          simp [htok]
        simp [findPasskey, hq, htok, ih,
          @List.find?_cons_of_neg _
            (fun it => passkeyQualifies pw ph it && (tokenOfText it.text).isSome) a rest hp]
    · have hp : ¬ (passkeyQualifies pw ph a && (tokenOfText a.text).isSome) = true := by
        simp [hq]
      simp [findPasskey, hq, ih,
        @List.find?_cons_of_neg _
          (fun it => passkeyQualifies pw ph it && (tokenOfText it.text).isSome) a rest hp]

theorem findName_append_of_none (pw ph : ℚ) (l₁ l₂ : List TextItem)
    (h : ∀ it ∈ l₁, nameQualifies pw ph it = false) :
    findName pw ph (l₁ ++ l₂) = findName pw ph l₂ := by
  induction l₁ with
  | nil => rfl
  | cons a rest ih =>
    have ha : nameQualifies pw ph a = false := h a (List.mem_cons_self a rest)
    have hrest : ∀ it ∈ rest, nameQualifies pw ph it = false := fun it hit =>
      h it (List.mem_cons_of_mem a hit)
    simp [findName, ha, ih hrest]

theorem dropWhile_dropWhile (p : Char → Bool) (l : List Char) :
    (l.dropWhile p).dropWhile p = l.dropWhile p := by
  induction l with
  | nil => rfl
  | cons a rest ih =>
    by_cases h : p a = true <;> simp [List.dropWhile_cons, h, ih]

theorem dropWhile_eq_self_of_prefix (p : Char → Bool) (c m : List Char)
    (hc : c <+: m) (hm : m.dropWhile p = m) : c.dropWhile p = c := by
  cases c with
  | nil => rfl
  | cons a cs =>
    have ha : p a = false := by
      obtain ⟨t, ht⟩ := hc
      by_contra hpa
      have hpa' : p a = true := by
        cases hq : p a with
        | true => rfl
        | false => exact absurd hq hpa
      have h1 : m.dropWhile p = (cs ++ t).dropWhile p := by
        rw [← ht]
        simp [List.dropWhile_cons, hpa']
      have h2 : ((cs ++ t).dropWhile p).length ≤ (cs ++ t).length :=
        (List.dropWhile_suffix p).length_le
      rw [hm] at h1
      have h3 : m.length = (cs ++ t).length + 1 := by
        rw [← ht]; simp
      have h4 : m.length ≤ (cs ++ t).length := by
        rw [h1]; exact h2
      omega
    simp [List.dropWhile_cons, ha]

theorem trim_idem_aux (p : Char → Bool) (A : List Char) (hA : A.dropWhile p = A) :
    ((((A.reverse.dropWhile p).reverse).dropWhile p).reverse.dropWhile p).reverse =
      (A.reverse.dropWhile p).reverse := by
  have hpre : (A.reverse.dropWhile p).reverse <+: A := by
    have h := List.reverse_prefix.mpr (List.dropWhile_suffix (l := A.reverse) p)
    rwa [List.reverse_reverse] at h
  have h2 : ((A.reverse.dropWhile p).reverse).dropWhile p =
      (A.reverse.dropWhile p).reverse :=
    dropWhile_eq_self_of_prefix p _ A hpre hA
  rw [h2, List.reverse_reverse, dropWhile_dropWhile]

theorem pyStrip_idem (l : List Char) : pyStrip (pyStrip l) = pyStrip l := by
  unfold pyStrip
  exact trim_idem_aux isPySpace (l.dropWhile isPySpace) (dropWhile_dropWhile isPySpace l)

theorem sortedByYb_tail (b : TextItem) (bs : List TextItem)
    (h : sortedByYb (b :: bs) = true) : sortedByYb bs = true := by
  cases bs with
  | nil => rfl
  | cons c cs =>
    have h' := h
    simp only [sortedByYb, Bool.and_eq_true] at h'
    exact h'.2

theorem sortedByYb_head (b c : TextItem) (cs : List TextItem)
    (h : sortedByYb (b :: c :: cs) = true) : b.y ≤ c.y := by
  simp only [sortedByYb, Bool.and_eq_true, decide_eq_true_eq] at h
  exact h.1

theorem sortedByYb_cons_insert (a : TextItem) (bs : List TextItem) :
    ∀ b : TextItem, sortedByYb (b :: bs) = true → b.y ≤ a.y →
      sortedByYb (b :: insertByY a bs) = true := by
  induction bs with
  | nil =>
    intro b _ hba
    simp [insertByY, sortedByYb, hba]
  | cons c cs ih =>
    intro b hs hba
    by_cases hac : a.y ≤ c.y
    · have hcs : sortedByYb (c :: cs) = true := sortedByYb_tail b _ hs
      simp [insertByY, hac, sortedByYb, hba, hcs]
    · have hbc : b.y ≤ c.y := sortedByYb_head b c cs hs
      have hcs : sortedByYb (c :: cs) = true := sortedByYb_tail b _ hs
      have hca : c.y ≤ a.y := le_of_lt (lt_of_not_ge hac)
      have htail := ih c hcs hca
      simp only [insertByY, if_neg hac]
      simp [sortedByYb, hbc]
      exact htail

theorem sortedByYb_insertByY (a : TextItem) (s : List TextItem)
    (hs : sortedByYb s = true) : sortedByYb (insertByY a s) = true := by
  cases s with
  | nil => rfl
  | cons b bs =>
    by_cases h : a.y ≤ b.y
    · simp [insertByY, h, sortedByYb, hs]
    · have hba : b.y ≤ a.y := le_of_lt (lt_of_not_ge h)
      simp only [insertByY, if_neg h]
      exact sortedByYb_cons_insert a bs b hs hba

theorem sortedByYb_sortByY (l : List TextItem) : sortedByYb (sortByY l) = true := by
  induction l with
  | nil => rfl
  | cons a rest ih => exact sortedByYb_insertByY a (sortByY rest) ih

theorem insertByY_perm (a : TextItem) (s : List TextItem) :
    (insertByY a s).Perm (a :: s) := by
  induction s with
  | nil => exact List.Perm.refl _
  | cons b bs ih =>
    by_cases h : a.y ≤ b.y
    · simp [insertByY, h]
    · simp only [insertByY, if_neg h]
      exact List.Perm.trans (List.Perm.cons b ih) (List.Perm.swap a b bs)

theorem sortByY_perm (l : List TextItem) : (sortByY l).Perm l := by
  induction l with
  | nil => exact List.Perm.refl _
  | cons a rest ih =>
    exact List.Perm.trans (insertByY_perm a (sortByY rest)) (List.Perm.cons a ih)

theorem filter_insertByY (a : TextItem) (s : List TextItem) (k : ℚ) :
    (insertByY a s).filter (fun it => decide (it.y = k)) =
      if a.y = k then a :: s.filter (fun it => decide (it.y = k))
      else s.filter (fun it => decide (it.y = k)) := by
  induction s with
  | nil =>
    by_cases h : a.y = k <;> simp [insertByY, List.filter_cons, h]
  | cons b bs ih =>
    by_cases hab : a.y ≤ b.y
    · rw [show insertByY a (b :: bs) = a :: b :: bs from by simp [insertByY, hab]]
      by_cases ha : a.y = k <;> simp [List.filter_cons, ha]
    · have hba : b.y < a.y := lt_of_not_ge hab
      by_cases ha : a.y = k
      · have hb : ¬ b.y = k := by
          rw [← ha]
          exact ne_of_lt hba
        simp only [insertByY, if_neg hab, List.filter_cons]
        simp [hb, ih, ha]
      · simp only [insertByY, if_neg hab, List.filter_cons]
        by_cases hb : b.y = k <;> simp [hb, ih, ha]

theorem filter_sortByY (l : List TextItem) (k : ℚ) :
    (sortByY l).filter (fun it => decide (it.y = k)) =
      l.filter (fun it => decide (it.y = k)) := by
  induction l with
  | nil => rfl
  | cons a rest ih =>
    show (insertByY a (sortByY rest)).filter (fun it => decide (it.y = k)) = _
    rw [filter_insertByY]
    by_cases ha : a.y = k <;> simp [List.filter_cons, ha, ih]

theorem sortByY_of_sorted (s : List TextItem) (hs : sortedByYb s = true) :
    sortByY s = s := by
  induction s with
  | nil => rfl
  | cons a rest ih =>
    show insertByY a (sortByY rest) = a :: rest
    rw [ih (sortedByYb_tail a rest hs)]
    cases rest with
    | nil => rfl
    | cons b bs =>
      have hab : a.y ≤ b.y := sortedByYb_head a b bs hs
      simp [insertByY, hab]

theorem sortByY_idem (l : List TextItem) : sortByY (sortByY l) = sortByY l :=
  sortByY_of_sorted (sortByY l) (sortedByYb_sortByY l)

theorem mem_collectItems (blocks : List Block) (it : TextItem)
    (h : it ∈ collectItems blocks) : ∃ s : Span, spanItem s = some it := by
  simp only [collectItems, List.mem_flatMap] at h
  obtain ⟨b, _, hbit⟩ := h
  unfold blockItems at hbit
  cases hl : b.lines with
  | none => rw [hl] at hbit; simp at hbit
  | some ls =>
    rw [hl] at hbit
    simp only [List.mem_flatMap] at hbit
    obtain ⟨ln, _, hit⟩ := hbit
    unfold lineItems at hit
    simp only [List.mem_filterMap] at hit
    obtain ⟨s, _, hs⟩ := hit
    exact ⟨s, hs⟩

theorem spanItem_text (s : Span) (it : TextItem) (h : spanItem s = some it) :
    it.text = pyStrip s.text ∧ it.text.isEmpty = false := by
  unfold spanItem at h
  by_cases he : (pyStrip s.text).isEmpty
  · simp [he] at h
  · simp only [he, if_false, Option.some.injEq, Bool.false_eq_true] at h
    rw [← h]
    refine ⟨rfl, ?_⟩
    cases hq : (pyStrip s.text).isEmpty with
    | false => rfl
    | true => exact absurd hq he

theorem extractFragments_text_good (blocks : List Block) :
    (extractFragments blocks).all
      (fun it => !it.text.isEmpty && (pyStrip it.text == it.text)) = true := by
  rw [List.all_eq_true]
  intro it hit
  have hmem : it ∈ collectItems blocks := ((sortByY_perm _).mem_iff).mp hit
  obtain ⟨s, hs⟩ := mem_collectItems blocks it hmem
  obtain ⟨ht, hne⟩ := spanItem_text s it hs
  simp only [Bool.and_eq_true, Bool.not_eq_true', beq_iff_eq]
  exact ⟨hne, by rw [ht, pyStrip_idem]⟩

theorem findPasskey_shape (pw ph : ℚ) (l : List TextItem) :
    findPasskey pw ph l = [] ∨ isPasskeyRun (findPasskey pw ph l) = true := by
  induction l with
  | nil => exact Or.inl rfl
  | cons a rest ih =>
    by_cases hq : passkeyQualifies pw ph a = true
    · cases htok : tokenOfText a.text with
      | none =>
        have hstep : findPasskey pw ph (a :: rest) = findPasskey pw ph rest := by
          simp [findPasskey, hq, htok]
        rw [hstep]; exact ih
      | some tok =>
        have htok' : (wordRuns a.text).find? isPasskeyRun = some tok := htok
        have hrun : isPasskeyRun tok = true := List.find?_some htok'
        have hstep : findPasskey pw ph (a :: rest) = tok := by
          simp [findPasskey, hq, htok]
        rw [hstep]; exact Or.inr hrun
    · have hstep : findPasskey pw ph (a :: rest) = findPasskey pw ph rest := by
        simp [findPasskey, hq]
      rw [hstep]; exact ih

theorem johnItem_qualifies (pw ph fw fh : ℚ) (hW : 0 < pw) (hH : 0 < ph) :
    nameQualifies pw ph (johnItem pw ph fw fh) = true := by
  unfold nameQualifies johnItem matchesNamePattern
  simp only [Bool.and_eq_true, decide_eq_true_eq]
  repeat' apply And.intro
  all_goals first
    | decide
    | linarith

/-! ### Claim theorems -/

/-- C1: for every page, the matcher's name result is the text of the first
fragment of the sorted fragment list satisfying all of: font size > 15,
horizontal position strictly between 20% and 80% of the page width, vertical
position strictly between 30% and 60% of the page height, text consisting
only of letters, whitespace and periods (non-empty), text length > 5, and
lower-cased text containing none of the blocklist substrings; the empty
string when no fragment qualifies. -/
theorem name_rule_correct (page : Page) :
    (extract_name_and_passkey_improved page).1 =
      (((extractFragments page.blocks).find? fun it =>
          decide (it.font_size > 15) &&
          decide (it.x > page.width * 0.2) && decide (it.x < page.width * 0.8) &&
          decide (it.y > page.height * 0.3) && decide (it.y < page.height * 0.6) &&
          (!it.text.isEmpty && it.text.all isNameChar) &&
          decide (it.text.length > 5) &&
          (blocklist.all fun w => !containsSub w (lowerCL it.text))).map
        TextItem.text).getD [] := by
  have hfun : nameQualifies page.width page.height = fun it =>
      decide (it.font_size > 15) &&
      decide (it.x > page.width * 0.2) && decide (it.x < page.width * 0.8) &&
      decide (it.y > page.height * 0.3) && decide (it.y < page.height * 0.6) &&
      (!it.text.isEmpty && it.text.all isNameChar) &&
      decide (it.text.length > 5) &&
      (blocklist.all fun w => !containsSub w (lowerCL it.text)) := by
    funext it
    unfold nameQualifies matchesNamePattern
    rw [List.not_any_eq_all_not]
  show findName page.width page.height (extractFragments page.blocks) = _
  rw [findName_eq_find?, hfun]

/-- C2 (amended): for every page, the matcher's passkey result is, for the
first bottom-right fragment (x > 70% of width, y > 80% of height) whose text
contains a 6–12 character uppercase-alphanumeric token bounded by NON-WORD
characters or string edges (an adjacent underscore, being a word character,
prevents a match), that first token; qualifying fragments without a token
are skipped, and the result is empty if no fragment yields one. -/
theorem passkey_rule_correct (page : Page) :
    (extract_name_and_passkey_improved page).2 =
      (((extractFragments page.blocks).find? fun it =>
          decide (it.x > page.width * 0.7) && decide (it.y > page.height * 0.8) &&
          (tokenOfText it.text).isSome).map
        fun it => (tokenOfText it.text).getD []).getD [] := by
  have hfun : (fun it => passkeyQualifies page.width page.height it &&
      (tokenOfText it.text).isSome) = fun it : TextItem =>
      decide (it.x > page.width * 0.7) && decide (it.y > page.height * 0.8) &&
      (tokenOfText it.text).isSome := by
    funext it
    unfold passkeyQualifies
    rw [Bool.and_assoc]
  show findPasskey page.width page.height (extractFragments page.blocks) = _
  rw [findPasskey_eq_find?, hfun]

/-- C2 counterexample: on a page whose single bottom-right fragment has text
`"ID_ABC123"`, the claim's reading ("token bounded by non-alphanumeric
characters or string edges") prescribes the passkey `"ABC123"` — the
underscore is not alphanumeric — but the code's regex `\b[A-Z0-9]{6,12}\b`
finds no word boundary between `_` and `A`, so the code returns the empty
string. -/
theorem passkey_boundary_counterexample :
    (extract_name_and_passkey_improved pkPage).2 = [] ∧
    passkeyClaimResult pkPage = "ABC123".data := by
  constructor
  · show findPasskey (100 : ℚ) (100 : ℚ) (sortByY (collectItems pkPage.blocks)) = []
    norm_num [collectItems, blockItems, lineItems, spanItem, pkPage, pkSpan,
      sortByY, insertByY, findPasskey, passkeyQualifies]
    decide
  · unfold passkeyClaimResult extractFragments
    norm_num [collectItems, blockItems, lineItems, spanItem, pkPage, pkSpan,
      sortByY, insertByY, passkeyQualifies]
    decide

/-- C3: for every page, the extractor's fragment list is sorted by vertical
position in non-decreasing order, and every fragment's text is non-empty
and carries no leading or trailing whitespace (whitespace-only spans were
dropped). -/
theorem extractor_contract (blocks : List Block) :
    sortedByYb (extractFragments blocks) = true ∧
    (extractFragments blocks).all
      (fun it => !it.text.isEmpty && (pyStrip it.text == it.text)) = true :=
  ⟨sortedByYb_sortByY (collectItems blocks), extractFragments_text_good blocks⟩

/-- C4: for every document with page list `pages` and every requested range
`[s, e)`, the batch run returns a row table (no error) whose length is the
number of pages in `[s, min e N)`, `N` the page count: clamping at `N`,
zero rows when `s ≥ N`, and zero rows (not an error) when `e < s`. -/
theorem batch_row_count (pages : List Page) (s e : ℕ) :
    ∃ rows, scan_pdf_batch (some pages) s (some e) = some rows ∧
      rows.length = min e pages.length - s := by
  refine ⟨_, rfl, ?_⟩
  simp [List.length_range']

/-- C5: for every page, if no fragment satisfies the name rule the name
result is the empty string, and independently, if no bottom-right fragment
yields a passkey token the passkey result is the empty string; the matcher
is a total function, so no error is possible. -/
theorem no_match_empty_fields (page : Page) :
    ((extractFragments page.blocks).all
        (fun it => !nameQualifies page.width page.height it) = true →
      (extract_name_and_passkey_improved page).1 = []) ∧
    ((extractFragments page.blocks).all
        (fun it => !(passkeyQualifies page.width page.height it &&
          (tokenOfText it.text).isSome)) = true →
      (extract_name_and_passkey_improved page).2 = []) := by
  constructor
  · intro h
    have hnone : (extractFragments page.blocks).find?
        (nameQualifies page.width page.height) = none := by
      rw [List.find?_eq_none]
      intro x hx
      have hx' := List.all_eq_true.mp h x hx
      rw [Bool.not_eq_true'] at hx'
      simp [hx']
    show findName page.width page.height (extractFragments page.blocks) = []
    rw [findName_eq_find?, hnone]
    rfl
  · intro h
    have hnone : (extractFragments page.blocks).find?
        (fun it => passkeyQualifies page.width page.height it &&
          (tokenOfText it.text).isSome) = none := by
      rw [List.find?_eq_none]
      intro x hx
      have hx' := List.all_eq_true.mp h x hx
      rw [Bool.not_eq_true'] at hx'
      simp [hx']
    show findPasskey page.width page.height (extractFragments page.blocks) = []
    rw [findPasskey_eq_find?, hnone]
    rfl

/-- Witness for C5: on a page with no spans at all, both fields come back
as the empty string. -/
theorem no_match_empty_fields_witness :
    (extract_name_and_passkey_improved
        { width := 100, height := 100, blocks := [] }).1 = [] ∧
    (extract_name_and_passkey_improved
        { width := 100, height := 100, blocks := [] }).2 = [] :=
  ⟨(no_match_empty_fields { width := 100, height := 100, blocks := [] }).1 rfl,
   (no_match_empty_fields { width := 100, height := 100, blocks := [] }).2 rfl⟩

/-- C6: the matcher is deterministic — it is a pure function of the
fragment list, so two runs agree — and moreover re-running it on the list
as left behind by the first run (sorted in place, as Python's `sort`
mutates) still yields the same `PageResult`. -/
theorem matcher_idempotent (pw ph : ℚ) (items : List TextItem) :
    matchFields pw ph items = matchFields pw ph items ∧
    matchFields pw ph (sortByY items) = matchFields pw ph items := by
  refine ⟨rfl, ?_⟩
  show (findName pw ph (sortByY (sortByY items)),
      findPasskey pw ph (sortByY (sortByY items))) =
    (findName pw ph (sortByY items), findPasskey pw ph (sortByY items))
  rw [sortByY_idem]

/-- C7: when the document cannot be opened (`fitz.open` raised), the batch
function returns the error value `none`: no pages are processed, no row
table is produced, and no output is written. -/
theorem open_failure_aborts (s : ℕ) (e : Option ℕ) :
    scan_pdf_batch none s e = none := rfl

/-- C8: for every page, the passkey result is either empty or a string of
6 to 12 characters drawn from `A`–`Z` and `0`–`9`. -/
theorem passkey_invariant (page : Page) :
    (extract_name_and_passkey_improved page).2 = [] ∨
      (6 ≤ (extract_name_and_passkey_improved page).2.length ∧
        (extract_name_and_passkey_improved page).2.length ≤ 12 ∧
        (extract_name_and_passkey_improved page).2.all isUpperDigit = true) := by
  have he : (extract_name_and_passkey_improved page).2 =
      findPasskey page.width page.height (extractFragments page.blocks) := rfl
  rw [he]
  rcases findPasskey_shape page.width page.height (extractFragments page.blocks)
    with h | h
  · exact Or.inl h
  · right
    unfold isPasskeyRun at h
    simp only [Bool.and_eq_true, decide_eq_true_eq] at h
    exact ⟨h.1.2, h.2, h.1.1⟩

/-- C9 (amended): on a page with positive width `pw` and height `ph`, if the
sorted fragment list contains the fragment
`{text := "John Michael Dela Cruz", fontSize := 18, x := 0.4*pw, y := 0.4*ph}`
and no fragment before it satisfies all of the name rule's conditions, the
name result is `"John Michael Dela Cruz"`. -/
theorem name_example_resolved (pw ph fw fh : ℚ) (l l₁ l₂ : List TextItem)
    (hW : 0 < pw) (hH : 0 < ph)
    (hsplit : sortByY l = l₁ ++ johnItem pw ph fw fh :: l₂)
    (hprev : l₁.all (fun it => !nameQualifies pw ph it) = true) :
    (matchFields pw ph l).1 = "John Michael Dela Cruz".data := by
  have hnone : ∀ it ∈ l₁, nameQualifies pw ph it = false := by
    intro it hit
    have h := List.all_eq_true.mp hprev it hit
    rwa [Bool.not_eq_true'] at h
  show findName pw ph (sortByY l) = _
  rw [hsplit, findName_append_of_none pw ph l₁ _ hnone]
  simp [findName, johnItem_qualifies pw ph fw fh hW hH]
  rfl

/-- Witness for C9 (amended), on a 100×100 page with the example fragment
alone. -/
theorem name_example_resolved_witness :
    (matchFields 100 100 [johnItem 100 100 1 1]).1 =
      "John Michael Dela Cruz".data :=
  name_example_resolved 100 100 1 1 [johnItem 100 100 1 1] [] []
    (by norm_num) (by norm_num) rfl rfl

/-- C9 counterexample: the fragment list `[mariaItem, johnFixed]` contains
the claim's example fragment (`johnFixed` equals it on a 100×100 page), is
already in sort order, and contains no blocklisted fragment anywhere — so in
particular none earlier in sort order — yet the name result is
`"Maria Clara Santos"`, not `"John Michael Dela Cruz"`: the claim's
hypothesis must also exclude earlier fragments that satisfy the whole name
rule, not just blocklisted ones. -/
theorem name_example_counterexample :
    johnFixed = johnItem 100 100 1 1 ∧
    sortByY cexNameList = cexNameList ∧
    cexNameList.all
      (fun it => blocklist.all fun w => !containsSub w (lowerCL it.text)) = true ∧
    (matchFields 100 100 cexNameList).1 = "Maria Clara Santos".data ∧
    "Maria Clara Santos".data ≠ "John Michael Dela Cruz".data := by
  refine ⟨?_, ?_, ?_, ?_, ?_⟩
  · simp only [johnFixed, johnItem, TextItem.mk.injEq]
    norm_num
  · decide
  · decide
  · show findName (100 : ℚ) (100 : ℚ) (sortByY cexNameList) = _
    rw [show sortByY cexNameList = cexNameList from by decide]
    have hm : nameQualifies 100 100 mariaItem = true := by
      unfold nameQualifies mariaItem
      norm_num
      decide
    show findName (100 : ℚ) (100 : ℚ) (mariaItem :: [johnFixed]) = _
    simp [findName, hm]
    rfl
  · decide

/-- C10: the sort of fragments by vertical position is stable — for every
`y` value, the fragments at that `y` appear in the extractor's output in
exactly their extraction order (block, then line, then span order). -/
theorem sort_stable (blocks : List Block) (k : ℚ) :
    (extractFragments blocks).filter (fun it => decide (it.y = k)) =
      (collectItems blocks).filter (fun it => decide (it.y = k)) :=
  filter_sortByY (collectItems blocks) k

end Scanner
